import Mathlib

/-!
Shallow embedding of the `loops` Go client library (files `loops.go` and the
unnamed near-duplicate variant, here `V0`).  Go `map[string]any` field maps are
modelled as association lists of dynamic `GoValue`s; the HTTP layer is modelled
by an explicit `Transport` oracle (`*http.Client`), an `HttpRequest` record
built exactly as `doRequest` builds it, and a trace of the actions performed on
the response body (`io.ReadAll`, `json.Decoder.Decode`, `Body.Close`).
-/

namespace Loops

/-- Go `error` values, modelled by their message string. -/
abbrev GoErr := String

/-- JSON values, the image of Go's `encoding/json` marshalling. -/
inductive Json where
  | null
  | str (s : String)
  | num (n : Int)
  | bool (b : Bool)
  | obj (members : List (String × Json))

/-- A dynamically typed Go value (`any`) as stored in a field map.
`time` carries the RFC3339 rendering `encoding/json` would produce;
`other` is a value of any type outside {string, bool, int, time.Time},
carrying its `%T` type name and its JSON marshalling when it has one
(`none` for unmarshalable types such as channels or functions). -/
inductive GoValue where
  | str (s : String)
  | bool (b : Bool)
  | int (i : Int)
  | time (rfc3339 : String)
  | other (tyName : String) (marshalled : Option Json)

/-- The Go `%T` verb on the dynamic type of a `GoValue`. -/
def GoValue.typeName : GoValue → String
  | .str _ => "string"
  | .bool _ => "bool"
  | .int _ => "int"
  | .time _ => "time.Time"
  | .other t _ => t

/-- A Go `map[string]any`, as an association list (one entry per key). -/
abbrev Fields := List (String × GoValue)

/-- Go map assignment `m[k] = v`: replace the binding of `k` if present,
otherwise add it. -/
def setField : Fields → String → GoValue → Fields
  | [], k, v => [(k, v)]
  | (k', v') :: rest, k, v =>
      if k' = k then (k, v) :: rest else (k', v') :: setField rest k v

/-- The type switch of `validateFields` in `loops.go`:
`case string, bool, int, time.Time`. -/
def allowedFieldType : GoValue → Bool
  | .str _ => true
  | .bool _ => true
  | .int _ => true
  | .time _ => true
  | .other _ _ => false

/-- The type switch of `validateFields` in the variant file:
`case string, bool, int` (no `time.Time`). -/
def allowedFieldTypeV0 : GoValue → Bool
  | .str _ => true
  | .bool _ => true
  | .int _ => true
  | .time _ => false
  | .other _ _ => false

/-- `json.Marshal` on one dynamic value. -/
def marshalGoValue : GoValue → Except GoErr Json
  | .str s => .ok (.str s)
  | .bool b => .ok (.bool b)
  | .int i => .ok (.num i)
  | .time t => .ok (.str t)
  | .other tyName m =>
      match m with
      | some j => .ok j
      | none => .error ("json: unsupported type: " ++ tyName)

/-- `json.Marshal` on a field map, member by member. -/
def marshalFieldList : Fields → Except GoErr (List (String × Json))
  | [] => .ok []
  | (k, v) :: rest => do
      let j ← marshalGoValue v
      let ms ← marshalFieldList rest
      .ok ((k, j) :: ms)

/-- `json.Marshal` on a `map[string]any` request body. -/
def marshalFields (fields : Fields) : Except GoErr Json :=
  (marshalFieldList fields).map Json.obj

/-- The one HTTP request `doRequest` builds (method, full URL, optional JSON
body, and the headers it sets). -/
structure HttpRequest where
  method : String
  url : String
  body : Option Json
  headers : List (String × String)

/-- The wire response the transport hands back: status code, status text, the
bytes a best-effort `io.ReadAll` of the body yields, and whether that read
also reports an error (which `doRequest` discards: `buf, _ := io.ReadAll`). -/
structure HttpResponse where
  statusCode : Nat
  status : String
  bodyBytes : String
  readAllFails : Bool
deriving DecidableEq, Repr

/-- An `*http.Client`: its `Do` method, as a function from the built request
to either a transport error or a response. -/
abbrev Transport := HttpRequest → Except GoErr HttpResponse

/-- The `Client` struct: API key, endpoint, and HTTP client
(`none` models a nil `*http.Client`). -/
structure Client where
  apiKey : String
  endpoint : String
  client : Option Transport

/-- `DefaultEndpoint` from `loops.go`. -/
def DefaultEndpoint : String := "https://app.loops.so/api/v1"

/-- Go `strings.HasSuffix`. -/
def hasSuffix (s suffix : String) : Bool :=
  suffix.data.isSuffixOf s.data

/-- Go `strings.TrimSuffix`: remove one trailing copy of `suffix` when
present, otherwise return `s` unchanged. -/
def trimSuffix (s suffix : String) : String :=
  if hasSuffix s suffix then ⟨s.data.take (s.data.length - suffix.data.length)⟩
  else s

/-- `NewClient`; `dflt` stands for the process-wide `http.DefaultClient`. -/
def NewClient (dflt : Transport) (apiKey : String) : Client :=
  { apiKey := apiKey, endpoint := DefaultEndpoint, client := some dflt }

/-- `WithEndpoint`: store the endpoint with its trailing slash trimmed. -/
def WithEndpoint (c : Client) (endpoint : String) : Client :=
  { c with endpoint := trimSuffix endpoint "/" }

/-- `WithHTTPClient`. -/
def WithHTTPClient (c : Client) (client : Option Transport) : Client :=
  { c with client := client }

/-- Actions `doRequest` performs on the response body stream, in order.
`readAll` (`io.ReadAll`) consumes the body to EOF; `decodeRead`
(`json.Decoder.Decode`) reads only as far as decoding one value requires;
`close` is the deferred `resp.Body.Close()`. -/
inductive BodyAction where
  | readAll
  | decodeRead
  | close
deriving DecidableEq, Repr

/-- Result of a call: the returned value or error, the trace of actions on
the response body, and the list of outbound requests handed to the
transport's `Do`. -/
structure CallResult (α : Type) where
  outcome : Except GoErr α
  bodyTrace : List BodyAction
  requests : List HttpRequest

/-- Lines 58–67 of `doRequest`: the request against `endpoint + path`, with
`Content-Type: application/json` exactly when a request body is present and
`Authorization: Bearer <key>` exactly when the API key is non-empty. -/
def buildRequest (c : Client) (method path : String) (reqBody : Option Json) :
    HttpRequest :=
  { method := method
    url := c.endpoint ++ path
    body := reqBody
    headers :=
      (if reqBody.isSome then [("Content-Type", "application/json")] else [])
        ++ (if c.apiKey ≠ "" then [("Authorization", "Bearer " ++ c.apiKey)]
            else []) }

/-- Lines 78–91 of `doRequest`: classify the obtained response.  `dst` is the
destination shape: `none` for a nil `dst`, `some d` for a supplied
destination with `d` the outcome `json.Decoder.Decode` would produce on this
response body.  On status ≥ 400 the body read error is discarded
(`buf, _ := io.ReadAll`) and the returned error carries the status text and
the bytes read.  The trace always ends with the deferred `close`. -/
def handleResponse {α : Type} (resp : HttpResponse)
    (dst : Option (Except GoErr α)) :
    Except GoErr (Option α) × List BodyAction :=
  if 400 ≤ resp.statusCode then
    (.error (resp.status ++ ": " ++ resp.bodyBytes), [.readAll, .close])
  else
    match dst with
    | some (.error e) => (.error e, [.decodeRead, .close])
    | some (.ok v) => (.ok (some v), [.decodeRead, .close])
    | none => (.ok none, [.close])

/-- Lines 69–91 of `doRequest`: pick the client (falling back to
`http.DefaultClient` when the stored one is nil), issue the one request, and
handle the transport error or the response. -/
def sendRequest {α : Type} (dflt : Transport) (c : Client)
    (method path : String) (reqBody : Option Json)
    (dst : Option (Except GoErr α)) : CallResult (Option α) :=
  let req := buildRequest c method path reqBody
  match (c.client.getD dflt) req with
  | .error e => { outcome := .error e, bodyTrace := [], requests := [req] }
  | .ok resp =>
      let hr := handleResponse resp dst
      { outcome := hr.1, bodyTrace := hr.2, requests := [req] }

/-- `doRequest`: `body` is the optional request payload together with the
outcome of `json.Marshal` on it; a marshalling error returns before any
request is built or sent (lines 49–56). -/
def doRequest {α : Type} (dflt : Transport) (c : Client)
    (method path : String) (body : Option (Except GoErr Json))
    (dst : Option (Except GoErr α)) : CallResult (Option α) :=
  match body with
  | some (.error e) => { outcome := .error e, bodyTrace := [], requests := [] }
  | some (.ok j) => sendRequest dflt c method path (some j) dst
  | none => sendRequest dflt c method path none dst

structure CreateContactResponse where
  success : Bool
  id : String
deriving DecidableEq, Repr, Inhabited

structure UpsertContactResponse where
  success : Bool
  id : String
deriving DecidableEq, Repr, Inhabited

structure DeleteContactResponse where
  success : Bool
  message : String
deriving DecidableEq, Repr, Inhabited

structure SendEventResponse where
  success : Bool
deriving DecidableEq, Repr, Inhabited

structure SendEventRequest where
  email : String
  eventName : String
deriving DecidableEq, Repr

structure SendTransactionalResponse where
  success : Bool
deriving DecidableEq, Repr, Inhabited

structure SendTransactionalRequest where
  email : String
  transactionalId : String
  dataVariables : Fields

/-- `json.Marshal` on a `SendEventRequest` (wire-exact member names). -/
def marshalSendEventRequest (r : SendEventRequest) : Json :=
  .obj [("email", .str r.email), ("eventName", .str r.eventName)]

/-- `json.Marshal` on a `SendTransactionalRequest`; the `dataVariables`
map may itself fail to marshal. -/
def marshalSendTransactionalRequest (r : SendTransactionalRequest) :
    Except GoErr Json :=
  (marshalFieldList r.dataVariables).map fun dv =>
    .obj [("email", .str r.email), ("transactionalId", .str r.transactionalId),
          ("dataVariables", .obj dv)]

/-- `validateFields` from `loops.go`: drop the `email` key silently, reject
the first value whose dynamic type is outside
{string, bool, int, time.Time} with an error naming the field and its `%T`
type, and return the surviving entries in a fresh map. -/
def validateFields : Fields → Except GoErr Fields
  | [] => .ok []
  | (k, v) :: rest =>
      if k = "email" then validateFields rest
      else if allowedFieldType v then
        (validateFields rest).map fun ret => (k, v) :: ret
      else .error ("invalid field type for " ++ k ++ ": " ++ v.typeName)

/-- Turn `doRequest`'s decoded `Option α` back into the façade's typed
return: Go decodes into a zero-initialised `var resp`, so an (unreachable)
undecoded success yields the zero value. -/
def facadeOutcome {α : Type} [Inhabited α] (r : CallResult (Option α)) :
    CallResult α :=
  { outcome :=
      match r.outcome with
      | .error e => .error e
      | .ok (some v) => .ok v
      | .ok none => .ok default
    bodyTrace := r.bodyTrace
    requests := r.requests }

/-- `CreateContact`: validate the fields, add the email, POST
`/contacts/create`.  `dec` is the oracle for decoding the response body into
`CreateContactResponse`. -/
def CreateContact (dflt : Transport)
    (dec : Except GoErr CreateContactResponse) (c : Client) (email : String)
    (fields : Fields) : CallResult CreateContactResponse :=
  match validateFields fields with
  | .error e => { outcome := .error e, bodyTrace := [], requests := [] }
  | .ok req =>
      let req := setField req "email" (.str email)
      facadeOutcome
        (doRequest dflt c "POST" "/contacts/create" (some (marshalFields req))
          (some dec))

/-- `UpsertContact`: validate the fields, add the email, PUT
`/contacts/update`. -/
def UpsertContact (dflt : Transport)
    (dec : Except GoErr UpsertContactResponse) (c : Client) (email : String)
    (fields : Fields) : CallResult UpsertContactResponse :=
  match validateFields fields with
  | .error e => { outcome := .error e, bodyTrace := [], requests := [] }
  | .ok req =>
      let req := setField req "email" (.str email)
      facadeOutcome
        (doRequest dflt c "PUT" "/contacts/update" (some (marshalFields req))
          (some dec))

/-- `DeleteContact` from `loops.go`: POST `/contacts/delete` with body
`{email}`. -/
def DeleteContact (dflt : Transport)
    (dec : Except GoErr DeleteContactResponse) (c : Client) (email : String) :
    CallResult DeleteContactResponse :=
  let req : Fields := [("email", .str email)]
  facadeOutcome
    (doRequest dflt c "POST" "/contacts/delete" (some (marshalFields req))
      (some dec))

/-- `SendEvent`: POST `/events/send` with the marshalled request struct. -/
def SendEvent (dflt : Transport) (dec : Except GoErr SendEventResponse)
    (c : Client) (req : SendEventRequest) : CallResult SendEventResponse :=
  facadeOutcome
    (doRequest dflt c "POST" "/events/send"
      (some (.ok (marshalSendEventRequest req))) (some dec))

/-- `SendTransactional` (only in `loops.go`): POST `/transactional`. -/
def SendTransactional (dflt : Transport)
    (dec : Except GoErr SendTransactionalResponse) (c : Client)
    (req : SendTransactionalRequest) : CallResult SendTransactionalResponse :=
  facadeOutcome
    (doRequest dflt c "POST" "/transactional"
      (some (marshalSendTransactionalRequest req)) (some dec))

namespace V0

/-- `validateFields` from the variant file: identical to the one in
`loops.go` except that its type switch has no `time.Time` case. -/
def validateFields : Fields → Except GoErr Fields
  | [] => .ok []
  | (k, v) :: rest =>
      if k = "email" then validateFields rest
      else if allowedFieldTypeV0 v then
        (validateFields rest).map fun ret => (k, v) :: ret
      else .error ("invalid field type for " ++ k ++ ": " ++ v.typeName)

/-- Variant `CreateContact` (same method and path as `loops.go`). -/
def CreateContact (dflt : Transport)
    (dec : Except GoErr CreateContactResponse) (c : Client) (email : String)
    (fields : Fields) : CallResult CreateContactResponse :=
  match validateFields fields with
  | .error e => { outcome := .error e, bodyTrace := [], requests := [] }
  | .ok req =>
      let req := setField req "email" (.str email)
      facadeOutcome
        (doRequest dflt c "POST" "/contacts/create" (some (marshalFields req))
          (some dec))

/-- Variant `UpsertContact` (same method and path as `loops.go`). -/
def UpsertContact (dflt : Transport)
    (dec : Except GoErr UpsertContactResponse) (c : Client) (email : String)
    (fields : Fields) : CallResult UpsertContactResponse :=
  match validateFields fields with
  | .error e => { outcome := .error e, bodyTrace := [], requests := [] }
  | .ok req =>
      let req := setField req "email" (.str email)
      facadeOutcome
        (doRequest dflt c "PUT" "/contacts/update" (some (marshalFields req))
          (some dec))

/-- Variant `DeleteContact`: method `DELETE` (not POST), same path and
body. -/
def DeleteContact (dflt : Transport)
    (dec : Except GoErr DeleteContactResponse) (c : Client) (email : String) :
    CallResult DeleteContactResponse :=
  let req : Fields := [("email", .str email)]
  facadeOutcome
    (doRequest dflt c "DELETE" "/contacts/delete" (some (marshalFields req))
      (some dec))

end V0

/-- Go map read `m[k]`: the value bound to `k`, if any. -/
def getField : Fields → String → Option GoValue
  | [], _ => none
  | (k', v) :: rest, k => if k' = k then some v else getField rest k

/-- Go `http.Header.Get`: the value of the first header with this name. -/
def headerValue : List (String × String) → String → Option String
  | [], _ => none
  | (n, v) :: rest, name => if n = name then some v else headerValue rest name

/-- The body of `validateFields`, abstracted over the type switch; both
variants instantiate it (proof artifact only). -/
def validateWith (allowed : GoValue → Bool) : Fields → Except GoErr Fields
  | [] => .ok []
  | (k, v) :: rest =>
      if k = "email" then validateWith allowed rest
      else if allowed v then
        (validateWith allowed rest).map fun ret => (k, v) :: ret
      else .error ("invalid field type for " ++ k ++ ": " ++ v.typeName)

/-- Shared mock transport: always replies 200 OK with a non-empty,
undecoded body left on the stream. -/
def mockResp200 : HttpResponse :=
  { statusCode := 200, status := "200 OK", bodyBytes := "leftover"
    readAllFails := false }

def mockTransport200 : Transport := fun _ => .ok mockResp200

def mockClient : Client := NewClient mockTransport200 "key"

lemma validateFields_eq_validateWith (fields : Fields) :
    validateFields fields = validateWith allowedFieldType fields := by
  induction fields with
  | nil => rfl
  | cons kv rest ih =>
      obtain ⟨k, v⟩ := kv
      simp [validateFields, validateWith, ih]

lemma validateFieldsV0_eq_validateWith (fields : Fields) :
    V0.validateFields fields = validateWith allowedFieldTypeV0 fields := by
  induction fields with
  | nil => rfl
  | cons kv rest ih =>
      obtain ⟨k, v⟩ := kv
      simp [V0.validateFields, validateWith, ih]

lemma validateWith_email_dropped (allowed : GoValue → Bool) (v : GoValue) :
    ∀ fields1 fields2 : Fields,
      validateWith allowed (fields1 ++ ("email", v) :: fields2)
        = validateWith allowed (fields1 ++ fields2) := by
  intro fields1
  induction fields1 with
  | nil =>
      intro fields2
      rw [List.nil_append, List.nil_append, validateWith, if_pos rfl]
  | cons kv rest ih =>
      intro fields2
      obtain ⟨k, w⟩ := kv
      by_cases hk : k = "email"
      · rw [List.cons_append, validateWith, if_pos hk, List.cons_append,
          validateWith, if_pos hk]
        exact ih fields2
      · by_cases hw : allowed w
        · rw [List.cons_append, validateWith, if_neg hk, if_pos hw,
            List.cons_append, validateWith, if_neg hk, if_pos hw, ih fields2]
        · rw [List.cons_append, validateWith, if_neg hk, if_neg hw,
            List.cons_append, validateWith, if_neg hk, if_neg hw]

lemma validateWith_ok_spec (allowed : GoValue → Bool) :
    ∀ fields ret, validateWith allowed fields = Except.ok ret →
      getField ret "email" = none ∧
      (∀ k, k ≠ "email" → getField ret k = getField fields k) ∧
      (∀ k v, (k, v) ∈ ret → allowed v = true) := by
  intro fields
  induction fields with
  | nil =>
      intro ret h
      simp [validateWith] at h
      subst h
      simp [getField]
  | cons kv rest ih =>
      obtain ⟨k, v⟩ := kv
      intro ret h
      by_cases hk : k = "email"
      · subst hk
        simp [validateWith] at h
        obtain ⟨h1, h2, h3⟩ := ih ret h
        refine ⟨h1, ?_, h3⟩
        intro k' hk'
        rw [h2 k' hk']
        simp [getField, Ne.symm hk']
      · by_cases hv : allowed v
        · rw [validateWith, if_neg hk, if_pos hv] at h
          cases hrest : validateWith allowed rest with
          | error e => rw [hrest] at h; simp [Except.map] at h
          | ok r0 =>
              rw [hrest] at h
              simp [Except.map] at h
              obtain ⟨h1, h2, h3⟩ := ih r0 hrest
              subst h
              refine ⟨?_, ?_, ?_⟩
              · simp [getField, hk, h1]
              · intro k' hk'
                by_cases hkk : k = k'
                · subst hkk; simp [getField]
                · simp [getField, hkk, h2 k' hk']
              · intro k2 v2 hm
                rcases List.mem_cons.mp hm with heq | hm2
                · cases heq; exact hv
                · exact h3 k2 v2 hm2
        · rw [validateWith, if_neg hk, if_neg hv] at h
          cases h

lemma validateWith_ok_of_allowed (allowed : GoValue → Bool) :
    ∀ fields : Fields,
      (∀ k v, (k, v) ∈ fields → k ≠ "email" → allowed v = true) →
      ∃ ret, validateWith allowed fields = Except.ok ret := by
  intro fields
  induction fields with
  | nil => intro _; exact ⟨[], rfl⟩
  | cons kv rest ih =>
      obtain ⟨k, v⟩ := kv
      intro hall
      have hrest : ∀ k v, (k, v) ∈ rest → k ≠ "email" → allowed v = true :=
        fun k' v' hm hk' => hall k' v' (List.mem_cons_of_mem _ hm) hk'
      obtain ⟨r0, hr0⟩ := ih hrest
      by_cases hk : k = "email"
      · exact ⟨r0, by rw [validateWith, if_pos hk]; exact hr0⟩
      · have hv : allowed v = true := hall k v (List.mem_cons_self _ _) hk
        refine ⟨(k, v) :: r0, ?_⟩
        rw [validateWith, if_neg hk, if_pos hv, hr0]
        rfl

lemma validateWith_error_of_bad (allowed : GoValue → Bool) :
    ∀ fields : Fields,
      (∃ k v, (k, v) ∈ fields ∧ k ≠ "email" ∧ allowed v = false) →
      ∃ k2 v2, (k2, v2) ∈ fields ∧ k2 ≠ "email" ∧ allowed v2 = false ∧
        validateWith allowed fields
          = Except.error ("invalid field type for " ++ k2 ++ ": " ++ v2.typeName) := by
  intro fields
  induction fields with
  | nil => rintro ⟨k, v, hm, -, -⟩; cases hm
  | cons kv rest ih =>
      obtain ⟨k, v⟩ := kv
      rintro ⟨kb, vb, hm, hkb, hvb⟩
      by_cases hk : k = "email"
      · subst hk
        have hm' : (kb, vb) ∈ rest := by
          rcases List.mem_cons.mp hm with heq | h2
          · cases heq; exact absurd rfl hkb
          · exact h2
        obtain ⟨k2, v2, hm2, hk2, hv2, herr⟩ := ih ⟨kb, vb, hm', hkb, hvb⟩
        refine ⟨k2, v2, List.mem_cons_of_mem _ hm2, hk2, hv2, ?_⟩
        rw [validateWith, if_pos rfl]
        exact herr
      · by_cases hv : allowed v
        · have hm' : (kb, vb) ∈ rest := by
            rcases List.mem_cons.mp hm with heq | h2
            · cases heq; rw [hv] at hvb; cases hvb
            · exact h2
          obtain ⟨k2, v2, hm2, hk2, hv2, herr⟩ := ih ⟨kb, vb, hm', hkb, hvb⟩
          refine ⟨k2, v2, List.mem_cons_of_mem _ hm2, hk2, hv2, ?_⟩
          rw [validateWith, if_neg hk, if_pos hv, herr]
          rfl
        · refine ⟨k, v, List.mem_cons_self _ _, hk, Bool.of_not_eq_true hv, ?_⟩
          rw [validateWith, if_neg hk, if_neg hv]

lemma marshalGoValue_ok_of_allowed (v : GoValue)
    (h : allowedFieldType v = true) : ∃ j, marshalGoValue v = Except.ok j := by
  cases v with
  | str s => exact ⟨.str s, rfl⟩
  | bool b => exact ⟨.bool b, rfl⟩
  | int i => exact ⟨.num i, rfl⟩
  | time t => exact ⟨.str t, rfl⟩
  | other t m => cases h

lemma marshalFieldList_ok_of_allowed :
    ∀ fields : Fields, (∀ k v, (k, v) ∈ fields → allowedFieldType v = true) →
      ∃ ms, marshalFieldList fields = Except.ok ms := by
  intro fields
  induction fields with
  | nil => intro _; exact ⟨[], rfl⟩
  | cons kv rest ih =>
      obtain ⟨k, v⟩ := kv
      intro hall
      obtain ⟨j, hj⟩ :=
        marshalGoValue_ok_of_allowed v (hall k v (List.mem_cons_self _ _))
      obtain ⟨ms, hms⟩ :=
        ih fun k' v' hm => hall k' v' (List.mem_cons_of_mem _ hm)
      exact ⟨(k, j) :: ms, by rw [marshalFieldList, hj, hms]; rfl⟩

lemma getField_setField_self (m : Fields) (k : String) (v : GoValue) :
    getField (setField m k v) k = some v := by
  induction m with
  | nil => simp [setField, getField]
  | cons kv rest ih =>
      obtain ⟨k', v'⟩ := kv
      by_cases h : k' = k
      · simp [setField, h, getField]
      · simp [setField, h, getField, ih]

lemma getField_setField_ne (m : Fields) (k k' : String) (v : GoValue)
    (h : k' ≠ k) : getField (setField m k v) k' = getField m k' := by
  induction m with
  | nil => simp [setField, getField, Ne.symm h]
  | cons kv rest ih =>
      obtain ⟨k0, v0⟩ := kv
      by_cases h0 : k0 = k
      · subst h0
        simp [setField, getField, Ne.symm h]
      · by_cases h1 : k0 = k'
        · subst h1
          simp [setField, h0, getField]
        · simp [setField, h0, getField, h1, ih]

lemma mem_setField (m : Fields) (k k2 : String) (v v2 : GoValue)
    (h : (k2, v2) ∈ setField m k v) : (k2, v2) ∈ m ∨ (k2 = k ∧ v2 = v) := by
  induction m with
  | nil =>
      simp [setField] at h
      exact Or.inr h
  | cons kv rest ih =>
      obtain ⟨k0, v0⟩ := kv
      by_cases h0 : k0 = k
      · rw [setField, if_pos h0] at h
        rcases List.mem_cons.mp h with heq | h2
        · cases heq; exact Or.inr ⟨rfl, rfl⟩
        · exact Or.inl (List.mem_cons_of_mem _ h2)
      · rw [setField, if_neg h0] at h
        rcases List.mem_cons.mp h with heq | h2
        · cases heq; exact Or.inl (List.mem_cons_self _ _)
        · rcases ih h2 with hm | he
          · exact Or.inl (List.mem_cons_of_mem _ hm)
          · exact Or.inr he

lemma facadeOutcome_requests {α : Type} [Inhabited α]
    (r : CallResult (Option α)) : (facadeOutcome r).requests = r.requests := rfl

lemma sendRequest_requests {α : Type} (dflt : Transport) (c : Client)
    (method path : String) (rb : Option Json)
    (dst : Option (Except GoErr α)) :
    (sendRequest dflt c method path rb dst).requests
      = [buildRequest c method path rb] := by
  unfold sendRequest
  cases h : (c.client.getD dflt) (buildRequest c method path rb) <;> simp [h]

lemma sendRequest_ok {α : Type} (dflt : Transport) (c : Client)
    (method path : String) (rb : Option Json)
    (dst : Option (Except GoErr α)) (resp : HttpResponse)
    (h : (c.client.getD dflt) (buildRequest c method path rb) = .ok resp) :
    sendRequest dflt c method path rb dst
      = { outcome := (handleResponse resp dst).1
          bodyTrace := (handleResponse resp dst).2
          requests := [buildRequest c method path rb] } := by
  unfold sendRequest
  simp [h]

lemma doRequest_requests_method_url {α : Type} (dflt : Transport)
    (c : Client) (method path : String) (body : Option (Except GoErr Json))
    (dst : Option (Except GoErr α)) :
    ∀ r ∈ (doRequest dflt c method path body dst).requests,
      r.method = method ∧ r.url = c.endpoint ++ path := by
  intro r hr
  cases body with
  | none =>
      rw [doRequest, sendRequest_requests] at hr
      rw [List.mem_singleton.mp hr]
      exact ⟨rfl, rfl⟩
  | some x =>
      cases x with
      | error e =>
          rw [doRequest] at hr
          cases hr
      | ok j =>
          rw [doRequest, sendRequest_requests] at hr
          rw [List.mem_singleton.mp hr]
          exact ⟨rfl, rfl⟩

lemma trimSuffix_append_of_hasSuffix (s suffix : String)
    (h : hasSuffix s suffix = true) : trimSuffix s suffix ++ suffix = s := by
  have hsuf : suffix.data <:+ s.data := by
    rw [hasSuffix] at h
    rwa [List.isSuffixOf_iff_suffix] at h
  obtain ⟨t, ht⟩ := hsuf
  have hlen : t.length = s.data.length - suffix.data.length := by
    rw [← ht]
    simp
  apply String.ext
  rw [trimSuffix, if_pos h, String.data_append]
  show s.data.take (s.data.length - suffix.data.length) ++ suffix.data = s.data
  rw [← hlen, ← ht, List.take_left]

lemma trimSuffix_of_not_hasSuffix (s suffix : String)
    (h : hasSuffix s suffix = false) : trimSuffix s suffix = s := by
  rw [trimSuffix, if_neg (by simp [h])]

/-- C1 v2: an `email` entry, wherever it sits in the map and whatever value
of whatever type it carries, is silently dropped by both `validateFields`
variants — the result (success or error) is exactly that of the map without
the entry, so it never causes an error — and the returned map never
contains the key `email`. -/
theorem c1_email_always_dropped :
    ∀ (fields fields1 fields2 ret retV0 : Fields) (v : GoValue),
      (validateFields (fields1 ++ ("email", v) :: fields2)
          = validateFields (fields1 ++ fields2)) ∧
      (V0.validateFields (fields1 ++ ("email", v) :: fields2)
          = V0.validateFields (fields1 ++ fields2)) ∧
      (validateFields fields = Except.ok ret →
        getField ret "email" = none) ∧
      (V0.validateFields fields = Except.ok retV0 →
        getField retV0 "email" = none) := by
  intro fields fields1 fields2 ret retV0 v
  refine ⟨?_, ?_, ?_, ?_⟩
  · rw [validateFields_eq_validateWith, validateFields_eq_validateWith]
    exact validateWith_email_dropped allowedFieldType v fields1 fields2
  · rw [validateFieldsV0_eq_validateWith, validateFieldsV0_eq_validateWith]
    exact validateWith_email_dropped allowedFieldTypeV0 v fields1 fields2
  · intro h
    rw [validateFields_eq_validateWith] at h
    exact (validateWith_ok_spec allowedFieldType fields ret h).1
  · intro h
    rw [validateFieldsV0_eq_validateWith] at h
    exact (validateWith_ok_spec allowedFieldTypeV0 fields retV0 h).1

/-- C1 v2 witness: a map whose `email` entry has a disallowed type (a
channel) still validates successfully, to a map without `email`. -/
theorem c1_email_always_dropped_witness :
    getField [("a", GoValue.int 1)] "email" = none :=
  (c1_email_always_dropped
      [("email", GoValue.other "chan int" none), ("a", GoValue.int 1)]
      [] [("a", GoValue.int 1)] [("a", GoValue.int 1)] [("a", GoValue.int 1)]
      (GoValue.other "chan int" none)).2.2.1 rfl

/-- C2 counterexample: the claim includes `timestamp` in the allowed set for
both cited implementations, but the variant file's `validateFields` has no
`time.Time` case in its type switch, so a timestamp-valued field fails
validation there instead of passing. -/
theorem c2_counterexample :
    V0.validateFields [("when", GoValue.time "2024-01-02T03:04:05Z")]
      = Except.error "invalid field type for when: time.Time" := rfl

/-- C2 (amended): in `loops.go`, `validateFields` fails on a map with a
non-`email` entry of disallowed type, the error naming an offending field
and its `%T` type, and succeeds when every non-`email` value has an allowed
type, where the allowed set is {string, bool, int, time.Time}; the variant
file behaves the same except that its allowed set is {string, bool, int},
so a `time.Time` value is rejected there. -/
theorem c2_type_check :
    ∀ fields : Fields,
      ((∃ k v, (k, v) ∈ fields ∧ k ≠ "email" ∧ allowedFieldType v = false) →
        ∃ k2 v2, (k2, v2) ∈ fields ∧ k2 ≠ "email" ∧
          allowedFieldType v2 = false ∧
          validateFields fields
            = Except.error
                ("invalid field type for " ++ k2 ++ ": " ++ v2.typeName)) ∧
      ((∀ k v, (k, v) ∈ fields → k ≠ "email" → allowedFieldType v = true) →
        ∃ ret, validateFields fields = Except.ok ret) ∧
      ((∃ k v, (k, v) ∈ fields ∧ k ≠ "email" ∧ allowedFieldTypeV0 v = false) →
        ∃ k2 v2, (k2, v2) ∈ fields ∧ k2 ≠ "email" ∧
          allowedFieldTypeV0 v2 = false ∧
          V0.validateFields fields
            = Except.error
                ("invalid field type for " ++ k2 ++ ": " ++ v2.typeName)) ∧
      ((∀ k v, (k, v) ∈ fields → k ≠ "email" → allowedFieldTypeV0 v = true) →
        ∃ ret, V0.validateFields fields = Except.ok ret) ∧
      (∀ t, allowedFieldType (GoValue.time t) = true
        ∧ allowedFieldTypeV0 (GoValue.time t) = false) := by
  intro fields
  refine ⟨?_, ?_, ?_, ?_, fun t => ⟨rfl, rfl⟩⟩
  · intro hbad
    rw [validateFields_eq_validateWith]
    exact validateWith_error_of_bad allowedFieldType fields hbad
  · intro hall
    rw [validateFields_eq_validateWith]
    exact validateWith_ok_of_allowed allowedFieldType fields hall
  · intro hbad
    rw [validateFieldsV0_eq_validateWith]
    exact validateWith_error_of_bad allowedFieldTypeV0 fields hbad
  · intro hall
    rw [validateFieldsV0_eq_validateWith]
    exact validateWith_ok_of_allowed allowedFieldTypeV0 fields hall

/-- C2 witness: a concrete disallowed value (a `float64`) makes the
`loops.go` `validateFields` fail with an error naming the field and type. -/
theorem c2_type_check_witness :
    ∃ k2 v2,
      (k2, v2) ∈
        ([("score", GoValue.other "float64" (some (Json.num 3)))] : Fields) ∧
      k2 ≠ "email" ∧ allowedFieldType v2 = false ∧
      validateFields [("score", GoValue.other "float64" (some (Json.num 3)))]
        = Except.error
            ("invalid field type for " ++ k2 ++ ": " ++ v2.typeName) :=
  (c2_type_check [("score", GoValue.other "float64" (some (Json.num 3)))]).1
    ⟨"score", GoValue.other "float64" (some (Json.num 3)),
      List.mem_cons_self _ _, by decide, rfl⟩

/-- C3: for every field map whose non-`email` values all have allowed
types, `validateFields` succeeds, and the returned map reads exactly like
the input minus the `email` key; since `email` is absent from it, setting
`email` on the result cannot collide with an existing entry and leaves all
other keys reading as in the input. -/
theorem c3_output_is_input_minus_email :
    ∀ fields : Fields,
      ((∀ k v, (k, v) ∈ fields → k ≠ "email" → allowedFieldType v = true) →
        ∃ ret, validateFields fields = Except.ok ret) ∧
      (∀ ret, validateFields fields = Except.ok ret →
        getField ret "email" = none ∧
        (∀ k, k ≠ "email" → getField ret k = getField fields k) ∧
        (∀ v, getField (setField ret "email" v) "email" = some v ∧
          ∀ k, k ≠ "email" →
            getField (setField ret "email" v) k = getField fields k)) := by
  intro fields
  constructor
  · intro hall
    rw [validateFields_eq_validateWith]
    exact validateWith_ok_of_allowed allowedFieldType fields hall
  · intro ret h
    rw [validateFields_eq_validateWith] at h
    obtain ⟨h1, h2, -⟩ := validateWith_ok_spec allowedFieldType fields ret h
    refine ⟨h1, h2, fun v => ⟨getField_setField_self ret "email" v, ?_⟩⟩
    intro k hk
    rw [getField_setField_ne ret "email" k v hk]
    exact h2 k hk

/-- C3 witness: a concrete valid map (including an `email` entry and an
allowed value) validates to exactly itself minus `email`. -/
theorem c3_output_is_input_minus_email_witness :
    ∃ ret,
      validateFields [("email", GoValue.bool true), ("a", GoValue.int 7)]
        = Except.ok ret :=
  (c3_output_is_input_minus_email
      [("email", GoValue.bool true), ("a", GoValue.int 7)]).1
    (by
      intro k v hm hk
      rcases List.mem_cons.mp hm with heq | hm2
      · cases heq; exact absurd rfl hk
      · rcases List.mem_cons.mp hm2 with heq | hm3
        · cases heq; rfl
        · cases hm3)

/-- C4: when validation fails, `CreateContact` and `UpsertContact` (both
variants) return the validation error unchanged, with no map and with an
empty request list — the dispatcher is never invoked. -/
theorem c4_validation_error_short_circuits :
    ∀ (dflt : Transport) (c : Client) (email : String) (fields : Fields)
      (e : GoErr) (dec1 : Except GoErr CreateContactResponse)
      (dec2 : Except GoErr UpsertContactResponse)
      (dec3 : Except GoErr CreateContactResponse)
      (dec4 : Except GoErr UpsertContactResponse),
      (validateFields fields = Except.error e →
        CreateContact dflt dec1 c email fields
            = { outcome := .error e, bodyTrace := [], requests := [] } ∧
        UpsertContact dflt dec2 c email fields
            = { outcome := .error e, bodyTrace := [], requests := [] }) ∧
      (V0.validateFields fields = Except.error e →
        V0.CreateContact dflt dec3 c email fields
            = { outcome := .error e, bodyTrace := [], requests := [] } ∧
        V0.UpsertContact dflt dec4 c email fields
            = { outcome := .error e, bodyTrace := [], requests := [] }) := by
  intro dflt c email fields e dec1 dec2 dec3 dec4
  constructor
  · intro h
    exact ⟨by rw [CreateContact, h], by rw [UpsertContact, h]⟩
  · intro h
    exact ⟨by rw [V0.CreateContact, h], by rw [V0.UpsertContact, h]⟩

/-- C4 witness: a concrete invalid map (an unmarshalable channel value)
makes `CreateContact` return the validation error with no request issued. -/
theorem c4_validation_error_short_circuits_witness :
    CreateContact mockTransport200 (Except.ok default) mockClient "a@b.c"
        [("bad", GoValue.other "chan int" none)]
      = { outcome := Except.error "invalid field type for bad: chan int"
          bodyTrace := [], requests := [] } :=
  ((c4_validation_error_short_circuits mockTransport200 mockClient "a@b.c"
      [("bad", GoValue.other "chan int" none)]
      "invalid field type for bad: chan int" (Except.ok default)
      (Except.ok default) (Except.ok default) (Except.ok default)).1 rfl).1

/-- C5: on an obtained response, `doRequest` (whose response phase is
`handleResponse`, reached through `sendRequest`) fails for status ≥ 400
with an error carrying the status text and the raw body — unaffected by a
body read failure — and succeeds for status < 400, decoding only when a
destination was supplied and surfacing a decode failure as an error. -/
theorem c5_status_classification :
    ∀ (α : Type) (resp : HttpResponse) (dst : Option (Except GoErr α)),
      (400 ≤ resp.statusCode →
        (handleResponse resp dst).1
          = Except.error (resp.status ++ ": " ++ resp.bodyBytes)) ∧
      (∀ b, handleResponse { resp with readAllFails := b } dst
          = handleResponse resp dst) ∧
      (resp.statusCode < 400 →
        ((handleResponse resp (none : Option (Except GoErr α))).1
            = Except.ok none) ∧
        (∀ v, dst = some (Except.ok v) →
          (handleResponse resp dst).1 = Except.ok (some v)) ∧
        (∀ e, dst = some (Except.error e) →
          (handleResponse resp dst).1 = Except.error e)) ∧
      (∀ (dflt : Transport) (c : Client) (method path : String)
          (rb : Option Json),
        (c.client.getD dflt) (buildRequest c method path rb)
            = Except.ok resp →
          (sendRequest dflt c method path rb dst).outcome
            = (handleResponse resp dst).1) ∧
      (∀ (dflt : Transport) (c : Client) (method path : String)
          (j : Option Json),
        doRequest dflt c method path (j.map Except.ok) dst
          = sendRequest dflt c method path j dst) := by
  intro α resp dst
  refine ⟨?_, ?_, ?_, ?_, ?_⟩
  · intro h
    rw [handleResponse.eq_def, if_pos h]
  · intro b
    rfl
  · intro h
    have hn : ¬ 400 ≤ resp.statusCode := Nat.not_le.mpr h
    refine ⟨?_, ?_, ?_⟩
    · rw [handleResponse.eq_def, if_neg hn]
    · intro v hv
      subst hv
      rw [handleResponse.eq_def, if_neg hn]
    · intro e he
      subst he
      rw [handleResponse.eq_def, if_neg hn]
  · intro dflt c method path rb h
    rw [sendRequest_ok dflt c method path rb dst resp h]
  · intro dflt c method path j
    cases j <;> rfl

/-- C5 witness: a concrete 404 response yields the status-text-plus-body
error. -/
theorem c5_status_classification_witness :
    (handleResponse
        { statusCode := 404, status := "404 Not Found"
          bodyBytes := "missing", readAllFails := true }
        (none : Option (Except GoErr SendEventResponse))).1
      = Except.error "404 Not Found: missing" :=
  (c5_status_classification SendEventResponse
      { statusCode := 404, status := "404 Not Found", bodyBytes := "missing"
        readAllFails := true } none).1 (by decide)

/-- C6 counterexample: a call that obtains a 200 response with a non-empty
body and no destination shape closes the body without ever reading it —
the body is not "fully drained regardless of outcome" as claimed; only the
deferred close always happens. -/
theorem c6_counterexample :
    (doRequest mockTransport200 mockClient "POST" "/contacts/mock" none
        (none : Option (Except GoErr SendEventResponse))).bodyTrace
      = [BodyAction.close] ∧
    mockResp200.bodyBytes ≠ "" :=
  ⟨rfl, by decide⟩

/-- C6 v2: on every call that obtains a response, exactly one outbound
request is issued and the body trace ends with the deferred close, which
occurs exactly once; the trace is exactly `[readAll, close]` in the
status ≥ 400 branch (the only full read), exactly `[decodeRead, close]` on
success with a destination supplied, and exactly `[close]` — no read at
all — on success without one, so the body is never fully drained on
success. -/
theorem c6_close_and_single_request :
    ∀ (α : Type) (dflt : Transport) (c : Client) (method path : String)
      (rb : Option Json) (dst : Option (Except GoErr α))
      (resp : HttpResponse),
      (c.client.getD dflt) (buildRequest c method path rb)
          = Except.ok resp →
        (sendRequest dflt c method path rb dst).requests
            = [buildRequest c method path rb] ∧
        (sendRequest dflt c method path rb dst).bodyTrace.getLast?
            = some BodyAction.close ∧
        (sendRequest dflt c method path rb dst).bodyTrace.count
            BodyAction.close = 1 ∧
        (400 ≤ resp.statusCode →
          (sendRequest dflt c method path rb dst).bodyTrace
            = [BodyAction.readAll, BodyAction.close]) ∧
        (resp.statusCode < 400 →
          BodyAction.readAll ∉
              (sendRequest dflt c method path rb dst).bodyTrace ∧
          (∀ d, dst = some d →
            (sendRequest dflt c method path rb dst).bodyTrace
              = [BodyAction.decodeRead, BodyAction.close]) ∧
          (dst = none →
            (sendRequest dflt c method path rb dst).bodyTrace
              = [BodyAction.close])) ∧
        (∀ j : Option Json,
          doRequest dflt c method path (j.map Except.ok) dst
            = sendRequest dflt c method path j dst) := by
  intro α dflt c method path rb dst resp h
  rw [sendRequest_ok dflt c method path rb dst resp h]
  refine ⟨rfl, ?_, ?_, ?_, ?_, ?_⟩
  · by_cases h4 : 400 ≤ resp.statusCode
    · rw [handleResponse.eq_def, if_pos h4]
      rfl
    · rw [handleResponse.eq_def, if_neg h4]
      cases dst with
      | none => rfl
      | some d => cases d <;> rfl
  · by_cases h4 : 400 ≤ resp.statusCode
    · rw [handleResponse.eq_def, if_pos h4]
      rfl
    · rw [handleResponse.eq_def, if_neg h4]
      cases dst with
      | none => rfl
      | some d => cases d <;> rfl
  · intro h4
    rw [handleResponse.eq_def, if_pos h4]
  · intro h4
    have hn : ¬ 400 ≤ resp.statusCode := Nat.not_le.mpr h4
    rw [handleResponse.eq_def, if_neg hn]
    refine ⟨?_, ?_, ?_⟩
    · cases dst with
      | none => simp
      | some d => cases d <;> simp
    · intro d hd
      subst hd
      cases d <;> rfl
    · intro hd
      subst hd
      rfl
  · intro j
    cases j <;> rfl

/-- C6 v2 witness: the concrete 200-response call with a destination shape
issues one request. -/
theorem c6_close_and_single_request_witness :
    (sendRequest mockTransport200 mockClient "POST" "/events/send"
        none (some (Except.ok (SendEventResponse.mk true)))).requests
      = [buildRequest mockClient "POST" "/events/send" none] :=
  (c6_close_and_single_request SendEventResponse mockTransport200 mockClient
      "POST" "/events/send" none (some (Except.ok (SendEventResponse.mk true)))
      mockResp200 rfl).1

/-- C7: each façade operation uses its fixed method and path — create
POST `/contacts/create`, upsert PUT `/contacts/update`, delete POST
(`loops.go`) or DELETE (variant) `/contacts/delete` with body `{email}`
only, send event POST `/events/send`, send transactional POST
`/transactional`. -/
theorem c7_fixed_methods_and_paths :
    ∀ (dflt : Transport) (c : Client) (email : String) (fields : Fields)
      (dec1 : Except GoErr CreateContactResponse)
      (dec2 : Except GoErr UpsertContactResponse)
      (dec3 dec4 : Except GoErr DeleteContactResponse)
      (dec5 : Except GoErr SendEventResponse)
      (dec6 : Except GoErr SendTransactionalResponse)
      (evreq : SendEventRequest) (streq : SendTransactionalRequest),
      (∀ r ∈ (CreateContact dflt dec1 c email fields).requests,
          r.method = "POST" ∧ r.url = c.endpoint ++ "/contacts/create") ∧
      (∀ r ∈ (UpsertContact dflt dec2 c email fields).requests,
          r.method = "PUT" ∧ r.url = c.endpoint ++ "/contacts/update") ∧
      ((DeleteContact dflt dec3 c email).requests
          = [buildRequest c "POST" "/contacts/delete"
              (some (Json.obj [("email", Json.str email)]))]) ∧
      ((V0.DeleteContact dflt dec4 c email).requests
          = [buildRequest c "DELETE" "/contacts/delete"
              (some (Json.obj [("email", Json.str email)]))]) ∧
      ((SendEvent dflt dec5 c evreq).requests
          = [buildRequest c "POST" "/events/send"
              (some (marshalSendEventRequest evreq))]) ∧
      (∀ r ∈ (SendTransactional dflt dec6 c streq).requests,
          r.method = "POST" ∧ r.url = c.endpoint ++ "/transactional") := by
  intro dflt c email fields dec1 dec2 dec3 dec4 dec5 dec6 evreq streq
  refine ⟨?_, ?_, ?_, ?_, ?_, ?_⟩
  · intro r hr
    cases hv : validateFields fields with
    | error e =>
        rw [CreateContact.eq_def, hv] at hr
        cases hr
    | ok ret =>
        rw [CreateContact.eq_def, hv] at hr
        rw [facadeOutcome_requests] at hr
        exact doRequest_requests_method_url dflt c "POST" "/contacts/create"
          _ _ r hr
  · intro r hr
    cases hv : validateFields fields with
    | error e =>
        rw [UpsertContact.eq_def, hv] at hr
        cases hr
    | ok ret =>
        rw [UpsertContact.eq_def, hv] at hr
        rw [facadeOutcome_requests] at hr
        exact doRequest_requests_method_url dflt c "PUT" "/contacts/update"
          _ _ r hr
  · have hm : marshalFields [("email", GoValue.str email)]
        = Except.ok (Json.obj [("email", Json.str email)]) := rfl
    rw [DeleteContact, hm, doRequest, facadeOutcome_requests,
      sendRequest_requests]
  · have hm : marshalFields [("email", GoValue.str email)]
        = Except.ok (Json.obj [("email", Json.str email)]) := rfl
    rw [V0.DeleteContact, hm, doRequest, facadeOutcome_requests,
      sendRequest_requests]
  · rw [SendEvent, facadeOutcome_requests, doRequest, sendRequest_requests]
  · intro r hr
    rw [SendTransactional.eq_def, facadeOutcome_requests] at hr
    exact doRequest_requests_method_url dflt c "POST" "/transactional" _ _ r hr

/-- C7 witness: the concrete delete call issues exactly the fixed POST
request to `/contacts/delete` with the `{email}` body. -/
theorem c7_fixed_methods_and_paths_witness :
    (DeleteContact mockTransport200 (Except.ok default) mockClient
        "a@b.c").requests
      = [buildRequest mockClient "POST" "/contacts/delete"
          (some (Json.obj [("email", Json.str "a@b.c")]))] :=
  (c7_fixed_methods_and_paths mockTransport200 mockClient "a@b.c" []
      (Except.ok default) (Except.ok default) (Except.ok default)
      (Except.ok default) (Except.ok default) (Except.ok default)
      ⟨"a@b.c", "signup"⟩ ⟨"a@b.c", "tx1", []⟩).2.2.1

/-- C8: every request `doRequest` issues carries
`Content-Type: application/json` exactly when it has a body, and
`Authorization: Bearer <key>` exactly when the configured API key is
non-empty. -/
theorem c8_headers :
    ∀ (α : Type) (dflt : Transport) (c : Client) (method path : String)
      (body : Option (Except GoErr Json)) (dst : Option (Except GoErr α))
      (r : HttpRequest),
      r ∈ (doRequest dflt c method path body dst).requests →
        (headerValue r.headers "Content-Type"
            = if r.body.isSome then some "application/json" else none) ∧
        (headerValue r.headers "Authorization"
            = if c.apiKey = "" then none
              else some ("Bearer " ++ c.apiKey)) := by
  intro α dflt c method path body dst r hr
  have hb : ∃ rb : Option Json, r = buildRequest c method path rb := by
    cases body with
    | none =>
        rw [doRequest, sendRequest_requests] at hr
        exact ⟨none, List.mem_singleton.mp hr⟩
    | some x =>
        cases x with
        | error e => rw [doRequest] at hr; cases hr
        | ok j =>
            rw [doRequest, sendRequest_requests] at hr
            exact ⟨some j, List.mem_singleton.mp hr⟩
  obtain ⟨rb, rfl⟩ := hb
  cases rb with
  | none =>
      by_cases hk : c.apiKey = ""
      · simp [buildRequest, headerValue, hk]
      · simp [buildRequest, headerValue, hk]
  | some j =>
      by_cases hk : c.apiKey = ""
      · simp [buildRequest, headerValue, hk]
      · simp [buildRequest, headerValue, hk]

/-- C8 witness: the concrete send-event request has both headers (body
present, key non-empty). -/
theorem c8_headers_witness :
    headerValue
        (buildRequest mockClient "POST" "/events/send"
          (some (marshalSendEventRequest ⟨"a@b.c", "signup"⟩))).headers
        "Content-Type"
      = some "application/json" := by
  have h :=
    (c8_headers SendEventResponse mockTransport200 mockClient "POST"
      "/events/send" (some (.ok (marshalSendEventRequest ⟨"a@b.c", "signup"⟩)))
      (some (Except.ok default))
      (buildRequest mockClient "POST" "/events/send"
        (some (marshalSendEventRequest ⟨"a@b.c", "signup"⟩)))
      (List.mem_singleton.mpr rfl)).1
  simpa using h

/-- C9: `WithEndpoint` stores the endpoint with a trailing `"/"` removed
(endpoints without one are stored unchanged), and `doRequest` composes
request URLs as the stored endpoint plus the path, so
`"https://x.example/api/"` is used as `"https://x.example/api"`. -/
theorem c9_trailing_slash_trimmed :
    ∀ (c : Client) (endpoint : String),
      (hasSuffix endpoint "/" = true →
        (WithEndpoint c endpoint).endpoint ++ "/" = endpoint) ∧
      (hasSuffix endpoint "/" = false →
        (WithEndpoint c endpoint).endpoint = endpoint) ∧
      ((WithEndpoint c "https://x.example/api/").endpoint
          = "https://x.example/api") ∧
      (∀ (method path : String) (rb : Option Json),
        (buildRequest (WithEndpoint c endpoint) method path rb).url
          = (WithEndpoint c endpoint).endpoint ++ path) := by
  intro c endpoint
  refine ⟨?_, ?_, ?_, fun method path rb => rfl⟩
  · intro h
    exact trimSuffix_append_of_hasSuffix endpoint "/" h
  · intro h
    exact trimSuffix_of_not_hasSuffix endpoint "/" h
  · show trimSuffix "https://x.example/api/" "/" = "https://x.example/api"
    decide

/-- C9 witness: the documented example endpoint, with its trailing slash,
recomposes to the original string after trimming. -/
theorem c9_trailing_slash_trimmed_witness :
    (WithEndpoint mockClient "https://x.example/api/").endpoint ++ "/"
      = "https://x.example/api/" :=
  (c9_trailing_slash_trimmed mockClient "https://x.example/api/").1
    (by decide)

/-- C10: with a nil HTTP client (`WithHTTPClient none`), `doRequest`
behaves exactly as with the default client — the fallback is taken instead
of dereferencing nil — and every operation still issues its one request. -/
theorem c10_nil_client_fallback :
    ∀ (α : Type) (dflt : Transport) (c : Client) (method path : String)
      (body : Option (Except GoErr Json)) (dst : Option (Except GoErr α)),
      (doRequest dflt (WithHTTPClient c none) method path body dst
        = doRequest dflt (WithHTTPClient c (some dflt)) method path body
            dst) ∧
      (∀ (dec : Except GoErr DeleteContactResponse) (email : String),
        (DeleteContact dflt dec (WithHTTPClient c none)
            email).requests.length = 1) ∧
      (∀ (dec : Except GoErr SendEventResponse) (evreq : SendEventRequest),
        (SendEvent dflt dec (WithHTTPClient c none)
            evreq).requests.length = 1) ∧
      (∀ (dec : Except GoErr CreateContactResponse) (email : String)
          (fields ret : Fields),
        validateFields fields = Except.ok ret →
          (CreateContact dflt dec (WithHTTPClient c none) email
              fields).requests.length = 1) := by
  intro α dflt c method path body dst
  refine ⟨?_, ?_, ?_, ?_⟩
  · cases body with
    | none => rfl
    | some x => cases x <;> rfl
  · intro dec email
    have hm : marshalFields [("email", GoValue.str email)]
        = Except.ok (Json.obj [("email", Json.str email)]) := rfl
    rw [DeleteContact, hm, doRequest, facadeOutcome_requests,
      sendRequest_requests]
    rfl
  · intro dec evreq
    rw [SendEvent, facadeOutcome_requests, doRequest, sendRequest_requests]
    rfl
  · intro dec email fields ret hv
    have hv' := hv
    rw [validateFields_eq_validateWith] at hv'
    have hall := (validateWith_ok_spec allowedFieldType fields ret hv').2.2
    have hall2 : ∀ k v, (k, v) ∈ setField ret "email" (GoValue.str email) →
        allowedFieldType v = true := by
      intro k v hmem
      rcases mem_setField ret "email" k (GoValue.str email) v hmem
        with h1 | h2
      · exact hall k v h1
      · rw [h2.2]
        rfl
    obtain ⟨ms, hms⟩ :=
      marshalFieldList_ok_of_allowed (setField ret "email" (GoValue.str email))
        hall2
    have hmm : marshalFields (setField ret "email" (GoValue.str email))
        = Except.ok (Json.obj ms) := by
      rw [marshalFields, hms]
      rfl
    rw [CreateContact.eq_def, hv, facadeOutcome_requests, hmm, doRequest,
      sendRequest_requests]
    rfl

/-- C10 witness: a client whose HTTP client is nil still issues the delete
request, and `doRequest` on it equals `doRequest` with the default
client. -/
theorem c10_nil_client_fallback_witness :
    (CreateContact mockTransport200 (Except.ok default)
        (WithHTTPClient mockClient none) "a@b.c"
        [("a", GoValue.int 1)]).requests.length = 1 :=
  (c10_nil_client_fallback SendEventResponse mockTransport200 mockClient
      "POST" "/x" none none).2.2.2 (Except.ok default) "a@b.c"
    [("a", GoValue.int 1)] [("a", GoValue.int 1)] rfl


end Loops
